import Mathlib

/-!
# OpenArm WebConnect — verified model of the serial protocol core

Shallow embedding of the protocol layer of the OpenArm WebConnect
application: the XOR checksum, the packet codec (`encodeAngles`,
`parsePacket`), the streaming frame-synchronization reader
(`SerialReader`), the throttled serial writer (`SerialWriter`) and the
CDN asset-manifest resolver (`CDNAssetLoader`).

Bytes are modelled as `Nat` (values below 256 where the source guarantees
it), byte buffers as `List Nat`, fallible operations as `Except`, and the
JavaScript classes as explicit state-passing functions.
-/

namespace OpenArm

/-! ## Configuration constants (`src/lib/config`) -/

/-- `PROTOCOL_CONFIG.syncWord`. -/
def SYNC_WORD : Nat := 0xaa55

/-- `PROTOCOL_CONFIG.commands.setJointAngle`. -/
def CMD_SET_JOINT_ANGLE : Nat := 0x01

/-- `SERIAL_CONFIG.maxPacketSize`, the size of the reader scratch buffer. -/
def PACKET_MAX_SIZE : Nat := 256

/-! ## Checksum (`src/lib/protocol/checksum.ts`)

`calculateChecksum` XOR-folds all bytes and masks with `0xff`;
`verifyChecksum` compares against the computed value. -/

/-- XOR-fold of a byte list, masked to 8 bits (`checksum ^= data[i]`,
`return checksum & 0xff`). -/
def calculateChecksum (data : List Nat) : Nat :=
  (data.foldl (fun c b => Nat.xor c b) 0) % 256

/-- `verifyChecksum(data, checksum)`: equality with `calculateChecksum`. -/
def verifyChecksum (data : List Nat) (checksum : Nat) : Bool :=
  calculateChecksum data = checksum

/-! ## Packet type and parse errors (`src/lib/protocol/types.ts`, `packet.ts`) -/

/-- The structured packet produced by `parsePacket`. -/
structure Packet where
  sync : Nat
  length : Nat
  command : Nat
  payload : List Nat
  checksum : Nat
  deriving Repr, DecidableEq

/-- The three `ProtocolError` messages thrown by `parsePacket`. -/
inductive ProtocolError where
  | packetTooSmall
  | invalidSyncWord
  | incompletePacket
  deriving Repr, DecidableEq

/-- `parsePacket(buffer)`: size check, big-endian sync check, header read,
completeness check, then field extraction.  `buffer.getD i 0` models
`view.getUint8(i)` (all reads are in bounds when reached). -/
def parsePacket (buffer : List Nat) : Except ProtocolError Packet :=
  if buffer.length < 5 then .error .packetTooSmall
  else
    let sync := buffer.getD 0 0 * 256 + buffer.getD 1 0
    if sync ≠ SYNC_WORD then .error .invalidSyncWord
    else
      let length := buffer.getD 2 0
      let command := buffer.getD 3 0
      if buffer.length < 4 + length + 1 then .error .incompletePacket
      else .ok { sync := sync, length := length, command := command,
                 payload := (buffer.drop 4).take length,
                 checksum := buffer.getD (4 + length) 0 }

/-! ## IEEE-754 binary32 serialization

`encodeAngles` stores each joint angle with `DataView.setFloat32(offset,
angle, true)`: the value is rounded to the nearest IEEE-754 binary32
value (ties to even) and stored as 4 little-endian bytes.  The model
computes the bit pattern with integer arithmetic on the numerator and
denominator of the exact rational input. -/

/-- Structural base-2 logarithm on naturals (fuel-based). -/
def natLog2Aux : Nat → Nat → Nat
  | 0, _ => 0
  | fuel + 1, n => if n < 2 then 0 else natLog2Aux fuel (n / 2) + 1

/-- `natLog2 n` is `⌊log₂ n⌋` for `n ≥ 1`. -/
def natLog2 (n : Nat) : Nat := natLog2Aux n n

/-- Whether `2^e ≤ a/d` for a positive fraction `a/d`, by cross-multiplying. -/
def pow2LE (e : ℤ) (a d : ℕ) : Bool :=
  if 0 ≤ e then d * 2 ^ e.toNat ≤ a else d ≤ a * 2 ^ (-e).toNat

/-- Floor of the base-2 logarithm of the positive fraction `a/d`. -/
def fracFloorLog2 (a d : ℕ) : ℤ :=
  let e0 : ℤ := (natLog2 a : ℤ) - (natLog2 d : ℤ)
  if pow2LE (e0 + 1) a d then e0 + 1
  else if pow2LE e0 a d then e0
  else e0 - 1

/-- Round `(a/d) * 2^k` to the nearest natural, ties to even. -/
def roundScaled (a d : ℕ) (k : ℤ) : ℕ :=
  let nd := if 0 ≤ k then (a * 2 ^ k.toNat, d) else (a, d * 2 ^ (-k).toNat)
  let q := nd.1 / nd.2
  let r := nd.1 % nd.2
  if 2 * r < nd.2 then q
  else if nd.2 < 2 * r then q + 1
  else if q % 2 = 0 then q else q + 1

/-- IEEE-754 binary32 bit pattern of the positive fraction `a/d`
(round to nearest, ties to even), including subnormal and
overflow-to-infinity handling. -/
def f32bitsPos (a d : ℕ) : ℕ :=
  let e := fracFloorLog2 a d
  if e < -126 then
    roundScaled a d 149
  else
    let m := roundScaled a d (23 - e)
    let me := if 2 ^ 24 ≤ m then ((2 ^ 23 : ℕ), e + 1) else (m, e)
    if 127 < me.2 then 0x7f800000
    else (me.2 + 127).toNat * 2 ^ 23 + (me.1 - 2 ^ 23)

/-- IEEE-754 binary32 bit pattern of a rational, the value semantics of
`DataView.setFloat32`. -/
def f32bits (q : ℚ) : ℕ :=
  if q.num = 0 then 0
  else if q.num < 0 then 2 ^ 31 + f32bitsPos q.num.natAbs q.den
  else f32bitsPos q.num.natAbs q.den

/-- Little-endian byte serialization of a 32-bit word. -/
def leBytes4 (n : ℕ) : List ℕ :=
  [n % 256, n / 256 % 256, n / 2 ^ 16 % 256, n / 2 ^ 24 % 256]

/-- The 4 bytes `DataView.setFloat32(·, x, true)` stores. -/
def f32leBytes (q : ℚ) : List ℕ := leBytes4 (f32bits q)

/-- Exact rational value of a binary32 bit pattern (`none` for NaN/Inf). -/
def f32valOfBits (bits : ℕ) : Option ℚ :=
  let sgn : ℤ := if bits / 2 ^ 31 % 2 = 1 then -1 else 1
  let e : ℕ := bits / 2 ^ 23 % 256
  let frac : ℕ := bits % 2 ^ 23
  if e = 255 then none
  else if e = 0 then some (mkRat (sgn * frac) (2 ^ 149))
  else if e ≤ 150 then some (mkRat (sgn * (2 ^ 23 + frac)) (2 ^ (150 - e)))
  else some (mkRat (sgn * (2 ^ 23 + frac) * 2 ^ (e - 150)) 1)

/-- Read 4 little-endian bytes back as a binary32 value
(`DataView.getFloat32(·, true)` on finite values). -/
def f32ofLeBytes (bs : List ℕ) : Option ℚ :=
  f32valOfBits (bs.getD 0 0 + bs.getD 1 0 * 256 + bs.getD 2 0 * 2 ^ 16 + bs.getD 3 0 * 2 ^ 24)

/-! ## Packet encoding (`encodeAngles`, `src/lib/protocol/packet.ts`) -/

/-- A joint-angle triple (base, arm1, arm2), each an exact rational
standing for the JS number handed to `setFloat32`. -/
def JointAngles : Type := ℚ × ℚ × ℚ

/-- `encodeAngles(angles)`: 17-byte frame `[sync_hi][sync_lo][length]
[cmd][3 × float32 LE][checksum]`, checksum over bytes 3–15
(`uint8View.slice(3, 16)`). -/
def encodeAngles (angles : JointAngles) : List ℕ :=
  let payload := f32leBytes angles.1 ++ f32leBytes angles.2.1 ++ f32leBytes angles.2.2
  let front := [SYNC_WORD / 256 % 256, SYNC_WORD % 256, 12, CMD_SET_JOINT_ANGLE] ++ payload
  front ++ [calculateChecksum (front.drop 3)]

/-! ## Stream frame synchronizer (`SerialReader`, `src/lib/serial/reader.ts`)

The reader owns a fixed `Uint8Array(PACKET_MAX_SIZE)` scratch buffer,
modelled as a `List ℕ` of length 256: `List.set` discards out-of-range
stores exactly as a typed-array store does.  Delivered packets and
reported parse errors are collected as an emission trace. -/

/-- `ReaderState` enum. -/
inductive ReaderState where
  | idle
  | syncing
  | readingHeader
  | readingPayload
  deriving Repr, DecidableEq

/-- The mutable fields of `SerialReader`. -/
structure SerialReader where
  state : ReaderState
  buffer : List ℕ
  bufferIndex : ℕ
  expectedLength : ℕ
  deriving Repr, DecidableEq

/-- One observable effect of the reader: a packet handed to `onPacket` or
a parse error handed to `onError`. -/
inductive Emit where
  | packet (p : Packet)
  | err (e : ProtocolError)
  deriving Repr, DecidableEq

/-- Reader state right after `start()` ran its preamble: state `SYNCING`,
cursor 0, zeroed scratch buffer. -/
def initReader : SerialReader :=
  { state := .syncing, buffer := List.replicate PACKET_MAX_SIZE 0,
    bufferIndex := 0, expectedLength := 0 }

/-- `handleSyncing(byte)`: store the byte, and once two bytes are held
compare the big-endian window against `SYNC_WORD`; on mismatch shift the
window left by one byte. -/
def handleSyncing (st : SerialReader) (b : ℕ) : SerialReader :=
  let buf := st.buffer.set st.bufferIndex b
  let i := st.bufferIndex + 1
  if 2 ≤ i then
    let sync := buf.getD 0 0 * 256 + buf.getD 1 0
    if sync = SYNC_WORD then
      { st with buffer := buf, bufferIndex := i, state := .readingHeader }
    else
      { st with buffer := (buf.set 0 (buf.getD 1 0)), bufferIndex := 1 }
  else
    { st with buffer := buf, bufferIndex := i }

/-- `handleReadingHeader(byte)`: store the byte; at 4 buffered bytes
capture `expectedLength = buffer[2]` and move to `READING_PAYLOAD`. -/
def handleReadingHeader (st : SerialReader) (b : ℕ) : SerialReader :=
  let buf := st.buffer.set st.bufferIndex b
  let i := st.bufferIndex + 1
  if 4 ≤ i then
    { st with buffer := buf, bufferIndex := i,
              expectedLength := buf.getD 2 0, state := .readingPayload }
  else
    { st with buffer := buf, bufferIndex := i }

/-- `processPacket()`: parse `buffer.slice(0, bufferIndex)` and report the
outcome to the packet or error callback. -/
def processPacket (st : SerialReader) : Emit :=
  match parsePacket (st.buffer.take st.bufferIndex) with
  | .ok p => .packet p
  | .error e => .err e

/-- `resetState()`. -/
def resetState (st : SerialReader) : SerialReader :=
  { st with state := .syncing, bufferIndex := 0, expectedLength := 0 }

/-- `handleReadingPayload(byte)`: store the byte; once
`4 + expectedLength + 1` bytes are buffered, process the packet and
reset. -/
def handleReadingPayload (st : SerialReader) (b : ℕ) : SerialReader × List Emit :=
  let buf := st.buffer.set st.bufferIndex b
  let i := st.bufferIndex + 1
  let st1 := { st with buffer := buf, bufferIndex := i }
  if 4 + st.expectedLength + 1 ≤ i then
    (resetState st1, [processPacket st1])
  else
    (st1, [])

/-- One iteration of the `processBytes` byte loop (the `switch` on
`this.state`; `IDLE` has no case and drops the byte). -/
def stepByte (st : SerialReader) (b : ℕ) : SerialReader × List Emit :=
  match st.state with
  | .idle => (st, [])
  | .syncing => (handleSyncing st b, [])
  | .readingHeader => (handleReadingHeader st b, [])
  | .readingPayload => handleReadingPayload st b

/-- `processBytes(data)`: run `stepByte` over every byte of a chunk,
collecting emissions in order. -/
def processBytes (st : SerialReader) : List ℕ → SerialReader × List Emit
  | [] => (st, [])
  | b :: rest =>
    let r := stepByte st b
    let rr := processBytes r.1 rest
    (rr.1, r.2 ++ rr.2)

/-- The `start()` read loop over a sequence of stream chunks: each chunk
is handed to `processBytes`. -/
def runChunks (st : SerialReader) : List (List ℕ) → SerialReader × List Emit
  | [] => (st, [])
  | c :: cs =>
    let r := processBytes st c
    let rr := runChunks r.1 cs
    (rr.1, r.2 ++ rr.2)

/-! ## Throttled writer (`SerialWriter`, `src/lib/serial/writer.ts`)

The queue holds outbound frames; `maxQueueSize = 10`.  Transport writes
either succeed or throw; the k-th write attempt's outcome is supplied by
an oracle `ok : ℕ → Bool`.  The drain loop (`processQueue`) is modelled
sequentially: it pops frames until the queue empties (clearing
`isWriting`) or a write throws (leaving `isWriting` set, since the
source has no `finally` around the loop). -/

/-- `maxQueueSize` of `SerialWriter`. -/
def maxQueueSize : ℕ := 10

/-- The mutable fields of `SerialWriter` relevant to queueing. -/
structure SerialWriter where
  queue : List (List ℕ)
  isWriting : Bool
  deriving Repr, DecidableEq

/-- The queue update in `write(data)`: when at capacity, keep only the
most recent `maxQueueSize - 1` entries (`slice(-this.maxQueueSize + 1)`),
then append. -/
def writeEnqueue (queue : List (List ℕ)) (data : List ℕ) : List (List ℕ) :=
  let q := if maxQueueSize ≤ queue.length
           then queue.drop (queue.length - (maxQueueSize - 1))
           else queue
  q ++ [data]

/-- `processQueue()` drain loop from attempt counter `k`: returns the
remaining queue, the `isWriting` flag afterwards, and the frames
actually written to the transport in order.  A failed write throws out
of the loop with the flag still `true`. -/
def processQueueFrom (ok : ℕ → Bool) (k : ℕ) : List (List ℕ) → List (List ℕ) × Bool × List (List ℕ)
  | [] => ([], false, [])
  | d :: rest =>
    if ok k then
      let r := processQueueFrom ok (k + 1) rest
      (r.1, r.2.1, d :: r.2.2)
    else (rest, true, [])

/-- `write(data)`: bounded enqueue, then start a drain only when none is
marked in progress.  Returns the new writer state and the frames written
during this call. -/
def writerWrite (st : SerialWriter) (ok : ℕ → Bool) (data : List ℕ) :
    SerialWriter × List (List ℕ) :=
  let q := writeEnqueue st.queue data
  if st.isWriting then ({ st with queue := q }, [])
  else
    let r := processQueueFrom ok 0 q
    ({ queue := r.1, isWriting := r.2.1 }, r.2.2)

/-- A sequence of `write` calls; collects all frames written. -/
def writerWriteSeq (st : SerialWriter) (ok : ℕ → Bool) : List (List ℕ) → SerialWriter × List (List ℕ)
  | [] => (st, [])
  | d :: ds =>
    let r := writerWrite st ok d
    let rr := writerWriteSeq r.1 ok ds
    (rr.1, r.2 ++ rr.2)

/-- `clearQueue()`: empties the backlog and nothing else. -/
def clearQueue (st : SerialWriter) : SerialWriter :=
  { st with queue := [] }

/-! ## CDN asset loader (`CDNAssetLoader`, `src/lib/cdn/loader.ts`)

The fetched body is modelled as a `RawManifest` whose required fields
are optional, mirroring what `validateManifest` checks with JS
truthiness (`!m.version || !m.generated || !Array.isArray(m.assets)`).
The network is an oracle from attempt number to fetch outcome.  The
inter-attempt `sleep(retryDelay)` and each fetch are recorded in an
event trace. -/

/-- One entry of `AssetManifest.assets`. -/
structure AssetInfo where
  original : String
  processed : String
  hash : String
  size : ℕ
  type : String
  url : Option String
  path : Option String
  deriving Repr, DecidableEq

/-- A fetched manifest body before validation: `version` / `generated`
as possibly-absent strings (absent, `null` or `""` are all JS-falsy,
collapsed to `none` or `some ""`), `assets` as `none` when not an
array. -/
structure RawManifest where
  version : Option String
  generated : Option String
  processor : Option String
  assets : Option (List AssetInfo)
  deriving Repr, DecidableEq

/-- What one `fetch` of the manifest URL produces. -/
inductive FetchOutcome where
  | netError
  | httpError (status : ℕ)
  | badJson
  | body (r : RawManifest)
  deriving Repr, DecidableEq

/-- The error thrown inside one attempt of the `loadManifest` loop. -/
inductive AttemptError where
  | netError
  | httpError (status : ℕ)
  | badJson
  | invalidManifest
  deriving Repr, DecidableEq

/-- `validateManifest`: requires truthy `version` and `generated` and an
array `assets`. -/
def validateManifest (r : RawManifest) : Bool :=
  (match r.version with | some v => v ≠ "" | none => false) &&
  (match r.generated with | some g => g ≠ "" | none => false) &&
  r.assets.isSome

/-- The body of one attempt: fetch, fail fast on non-ok status or bad
JSON, then structural validation — a validation failure is the same kind
of in-loop throw as a fetch failure. -/
def attemptResult : FetchOutcome → Except AttemptError RawManifest
  | .netError => .error .netError
  | .httpError s => .error (.httpError s)
  | .badJson => .error .badJson
  | .body r => if validateManifest r then .ok r else .error .invalidManifest

/-- Events observable during `loadManifest`. -/
inductive LoadEvent where
  | fetchAttempt (n : ℕ)
  | delay (ms : ℕ)
  deriving Repr, DecidableEq

/-- Result of `loadManifest`: a manifest, or the terminal fault carrying
the last in-loop error. -/
inductive LoadResult where
  | success (m : RawManifest)
  | fault (last : AttemptError)
  deriving Repr, DecidableEq

/-- The `for (attempt = 1; attempt <= retryAttempts; ...)` retry loop:
`remaining` attempts left, current attempt number `attempt`.  On an
in-loop error, sleep `delayMs` before the next attempt, or rethrow the
terminal fault when the loop is exhausted. -/
def loadLoop (delayMs : ℕ) (oc : ℕ → FetchOutcome) (attempt : ℕ) :
    ℕ → LoadResult × List LoadEvent
  | 0 => (.fault .netError, [])
  | remaining + 1 =>
    match attemptResult (oc attempt) with
    | .ok m => (.success m, [.fetchAttempt attempt])
    | .error e =>
      if remaining = 0 then (.fault e, [.fetchAttempt attempt])
      else
        let r := loadLoop delayMs oc (attempt + 1) remaining
        (r.1, .fetchAttempt attempt :: .delay delayMs :: r.2)

/-- Loader configuration (`CDN_CONFIG` fields used by the loader). -/
structure LoaderConfig where
  publicUrl : String
  cacheTimeout : ℕ
  retryAttempts : ℕ
  retryDelay : ℕ

/-- The mutable fields of `CDNAssetLoader`: the `manifest` field, the
manifest cache entry for the single manifest URL, and the per-name URL
cache. -/
structure LoaderState where
  manifest : Option RawManifest
  manifestCache : Option (RawManifest × ℕ)
  assetUrlCache : List (String × String)
  deriving Repr, DecidableEq

/-- `loadManifest()`: serve a cache entry younger than `cacheTimeout`
without fetching; otherwise run the retry loop, caching the manifest and
setting `this.manifest` on success. -/
def loadManifest (cfg : LoaderConfig) (st : LoaderState) (now : ℕ) (oc : ℕ → FetchOutcome) :
    LoadResult × LoaderState × List LoadEvent :=
  let go := fun (_ : Unit) =>
    let r := loadLoop cfg.retryDelay oc 1 cfg.retryAttempts
    match r.1 with
    | .success m =>
      (LoadResult.success m,
       { st with manifest := some m, manifestCache := some (m, now) }, r.2)
    | .fault e => (LoadResult.fault e, st, r.2)
  match st.manifestCache with
  | some (m, ts) =>
    if now - ts < cfg.cacheTimeout then (.success m, st, []) else go ()
  | none => go ()

/-- `Map.get` on the per-name URL cache. -/
def lookupCache (c : List (String × String)) (k : String) : Option String :=
  (c.find? (fun p => p.1 = k)).map (·.2)

/-- `constructAssetUrl(asset)`: entry-point documents at the CDN root,
everything else under `assets/`. -/
def constructAssetUrl (publicUrl : String) (a : AssetInfo) : String :=
  if a.type = "application/xml" then publicUrl ++ "/" ++ a.processed
  else publicUrl ++ "/assets/" ++ a.processed

/-- `asset.url || this.constructAssetUrl(asset)`: JS `||` takes the
explicit URL only when it is truthy (present and non-empty). -/
def resolveEntryUrl (publicUrl : String) (a : AssetInfo) : String :=
  match a.url with
  | some u => if u = "" then constructAssetUrl publicUrl a else u
  | none => constructAssetUrl publicUrl a

/-- Result of `getAssetUrl`. -/
inductive AssetUrlResult where
  | ok (url : String)
  | notFound (name : String)
  | loadFault (e : AttemptError)
  deriving Repr, DecidableEq

/-- `getAssetUrl(originalName)`: per-name cache, then ensure a manifest
is held (fetching only when `this.manifest` is null), then first
`assets` entry with matching `original`, then URL resolution and
caching. -/
def getAssetUrl (cfg : LoaderConfig) (st : LoaderState) (now : ℕ) (oc : ℕ → FetchOutcome)
    (originalName : String) : AssetUrlResult × LoaderState :=
  match lookupCache st.assetUrlCache originalName with
  | some cached => (.ok cached, st)
  | none =>
    let loaded : Except AttemptError LoaderState :=
      match st.manifest with
      | some _ => .ok st
      | none =>
        match loadManifest cfg st now oc with
        | (.success _, st1, _) => .ok st1
        | (.fault e, _, _) => .error e
    match loaded with
    | .error e => (.loadFault e, st)
    | .ok st1 =>
      let assets := match st1.manifest with
        | some m => m.assets.getD []
        | none => []
      match assets.find? (fun a => a.original = originalName) with
      | none => (.notFound originalName, st1)
      | some a =>
        let url := resolveEntryUrl cfg.publicUrl a
        (.ok url, { st1 with assetUrlCache := (originalName, url) :: st1.assetUrlCache })

/-! ## List helpers -/

/-- Write the bytes `bs` into `buf` starting at index `i` (out-of-range
stores are discarded, as for a typed array). -/
def listOverwrite (buf : List ℕ) (i : ℕ) : List ℕ → List ℕ
  | [] => buf
  | b :: bs => listOverwrite (buf.set i b) (i + 1) bs

theorem length_listOverwrite (bs : List ℕ) (buf : List ℕ) (i : ℕ) :
    (listOverwrite buf i bs).length = buf.length := by
  induction bs generalizing buf i with
  | nil => rfl
  | cons b bs ih => simp [listOverwrite, ih]

theorem getD_set_ne (l : List ℕ) (i j x : ℕ) (h : i ≠ j) :
    (l.set i x).getD j 0 = l.getD j 0 := by
  simp [List.getD_eq_getElem?_getD, List.getElem?_set_ne h]

theorem getD_set_eq (l : List ℕ) (i x : ℕ) (h : i < l.length) :
    (l.set i x).getD i 0 = x := by
  simp [List.getD_eq_getElem?_getD, List.getElem?_set_self, h]

theorem getD_listOverwrite_lt (bs : List ℕ) (buf : List ℕ) (i j : ℕ) (h : j < i) :
    (listOverwrite buf i bs).getD j 0 = buf.getD j 0 := by
  induction bs generalizing buf i with
  | nil => rfl
  | cons b bs ih =>
    rw [listOverwrite, ih _ _ (Nat.lt_succ_of_lt h), getD_set_ne]
    omega

theorem take_succ_set (l : List ℕ) (i x : ℕ) (h : i < l.length) :
    (l.set i x).take (i + 1) = l.take i ++ [x] := by
  induction l generalizing i with
  | nil => simp at h
  | cons a l ih =>
    cases i with
    | zero => simp
    | succ i => simpa using ih i (by simpa using h)

theorem listOverwrite_take (bs : List ℕ) (buf : List ℕ) (i : ℕ)
    (h : i + bs.length ≤ buf.length) :
    (listOverwrite buf i bs).take (i + bs.length) = buf.take i ++ bs := by
  induction bs generalizing buf i with
  | nil => simp [listOverwrite]
  | cons b bs ih =>
    have hi : i < buf.length := by simp only [List.length_cons] at h; omega
    have := ih (buf.set i b) (i + 1)
      (by simp only [List.length_set]; simp only [List.length_cons] at h; omega)
    rw [listOverwrite]
    have harith : i + (b :: bs).length = (i + 1) + bs.length := by simp; omega
    rw [harith, this, take_succ_set _ _ _ hi]
    simp

theorem take_four_eq (l : List ℕ) (h : 4 ≤ l.length) :
    l.take 4 = [l.getD 0 0, l.getD 1 0, l.getD 2 0, l.getD 3 0] := by
  match l with
  | a :: b :: c :: d :: rest => simp [List.getD]
  | [] | [_] | [_, _] | [_, _, _] => simp at h

/-! ## Packet codec characterization -/

/-- C2: For every byte buffer `b`, `parsePacket` fails with `Packet too
small` iff `b.length < 5`; otherwise fails with `Invalid sync word` iff
the first two bytes big-endian differ from `0xAA55`; otherwise, with
`length` the byte at offset 2, fails with `Incomplete packet` iff
`b.length < 4 + length + 1`; otherwise returns the packet with
`command = b[3]`, `payload = b[4 : 4+length]`, `checksum = b[4+length]`
— succeeding regardless of whether the checksum byte matches the
XOR-fold, which decode never checks. -/
theorem C2_parsePacket_characterization (b : List ℕ) :
    (parsePacket b = .error .packetTooSmall ↔ b.length < 5) ∧
    (5 ≤ b.length →
      (parsePacket b = .error .invalidSyncWord ↔
        b.getD 0 0 * 256 + b.getD 1 0 ≠ 0xaa55)) ∧
    (5 ≤ b.length → b.getD 0 0 * 256 + b.getD 1 0 = 0xaa55 →
      (parsePacket b = .error .incompletePacket ↔
        b.length < 4 + b.getD 2 0 + 1)) ∧
    (5 ≤ b.length → b.getD 0 0 * 256 + b.getD 1 0 = 0xaa55 →
      4 + b.getD 2 0 + 1 ≤ b.length →
      parsePacket b = .ok
        { sync := 0xaa55, length := b.getD 2 0, command := b.getD 3 0,
          payload := (b.drop 4).take (b.getD 2 0),
          checksum := b.getD (4 + b.getD 2 0) 0 }) := by
  simp only [parsePacket, SYNC_WORD]
  refine ⟨?_, ?_, ?_, ?_⟩
  · split_ifs with h1 h2 h3 <;> simp [h1]
  · intro h5
    split_ifs with h1 h2 h3 <;> first | omega | simp_all
  · intro h5 hsync
    split_ifs with h1 h2 h3 <;> first | omega | simp_all
  · intro h5 hsync hlen
    split_ifs with h1 h2 h3 <;> first | omega | simp_all

/-- Witness for C2 at a concrete buffer (`L = 1`, mismatching checksum
byte: decode still succeeds). -/
theorem C2_parsePacket_characterization_witness :
    parsePacket [0xaa, 0x55, 1, 2, 9, 7] = .ok
      { sync := 0xaa55, length := 1, command := 2, payload := [9], checksum := 7 } :=
  (C2_parsePacket_characterization [0xaa, 0x55, 1, 2, 9, 7]).2.2.2
    (by decide) (by decide) (by decide)

end OpenArm

namespace OpenArm

theorem f32leBytes_length (q : ℚ) : (f32leBytes q).length = 4 := rfl

/-- C4: `encodeAngles` always emits 17 bytes: big-endian sync `0xAA,0x55`,
length byte 12, command byte `0x01`, the three angles as little-endian
IEEE-754 float32 fields in input order, and a trailing checksum equal to
the XOR-fold of the command byte and the 12 payload bytes; the example
`[0.5, 1.0, -0.5]` decodes back from offsets 4/8/12 to `0.5, 1.0, -0.5`. -/
theorem C4_encodeAngles_frame (a : JointAngles) :
    (encodeAngles a).length = 17 ∧
    (encodeAngles a).take 2 = [0xaa, 0x55] ∧
    (encodeAngles a).getD 2 0 = 12 ∧
    (encodeAngles a).getD 3 0 = CMD_SET_JOINT_ANGLE ∧
    ((encodeAngles a).drop 4).take 12 =
      f32leBytes a.1 ++ f32leBytes a.2.1 ++ f32leBytes a.2.2 ∧
    (encodeAngles a).getD 16 0 =
      calculateChecksum (CMD_SET_JOINT_ANGLE ::
        (f32leBytes a.1 ++ f32leBytes a.2.1 ++ f32leBytes a.2.2)) ∧
    f32ofLeBytes (((encodeAngles (mkRat 1 2, mkRat 1 1, mkRat (-1) 2)).drop 4).take 4)
      = some (mkRat 1 2) ∧
    f32ofLeBytes (((encodeAngles (mkRat 1 2, mkRat 1 1, mkRat (-1) 2)).drop 8).take 4)
      = some (mkRat 1 1) ∧
    f32ofLeBytes (((encodeAngles (mkRat 1 2, mkRat 1 1, mkRat (-1) 2)).drop 12).take 4)
      = some (mkRat (-1) 2) := by
  obtain ⟨x0, x1, x2, x3, hx⟩ : ∃ p q r s, f32leBytes a.1 = [p, q, r, s] :=
    ⟨_, _, _, _, rfl⟩
  obtain ⟨y0, y1, y2, y3, hy⟩ : ∃ p q r s, f32leBytes a.2.1 = [p, q, r, s] :=
    ⟨_, _, _, _, rfl⟩
  obtain ⟨z0, z1, z2, z3, hz⟩ : ∃ p q r s, f32leBytes a.2.2 = [p, q, r, s] :=
    ⟨_, _, _, _, rfl⟩
  refine ⟨?_, ?_, ?_, ?_, ?_, ?_, by decide, by decide, by decide⟩ <;>
    simp [encodeAngles, hx, hy, hz, SYNC_WORD, CMD_SET_JOINT_ANGLE, List.getD]

end OpenArm

namespace OpenArm

/-- C6: the pending queue is bounded by `maxQueueSize = 10`: a `write`
with the queue at or above capacity drops the oldest entries so that
after appending only the most recent 10 frames remain in original
relative order (the enqueue result is always the 10-frame suffix of
`queue ++ [data]`), and a drain with a healthy transport writes the
queued frames in strict FIFO order. -/
theorem C6_writer_capacity_fifo (queue : List (List ℕ)) (data : List ℕ)
    (ok : ℕ → Bool) (k : ℕ) :
    (queue.length ≤ maxQueueSize → (writeEnqueue queue data).length ≤ maxQueueSize) ∧
    writeEnqueue queue data = (queue ++ [data]).drop (queue.length + 1 - maxQueueSize) ∧
    ((∀ j, ok j = true) → processQueueFrom ok k queue = ([], false, queue)) := by
  refine ⟨?_, ?_, ?_⟩
  · intro h
    unfold writeEnqueue maxQueueSize
    split <;>
      simp only [List.length_append, List.length_drop, List.length_cons,
        List.length_nil] <;> omega
  · unfold writeEnqueue maxQueueSize
    split
    · have harith : queue.length + 1 - 10 = queue.length - (10 - 1) := by omega
      rw [List.drop_append_of_le_length (by omega), harith]
    · rw [Nat.sub_eq_zero_of_le (by omega), List.drop_zero]
  · intro hok
    induction queue generalizing k with
    | nil => rfl
    | cons d rest ih => simp [processQueueFrom, hok, ih]

/-- Witness for C6 at a queue already at capacity and a two-frame FIFO
drain. -/
theorem C6_writer_capacity_fifo_witness :
    (writeEnqueue [[0], [1], [2], [3], [4], [5], [6], [7], [8], [9]] [10]).length ≤
      maxQueueSize ∧
    processQueueFrom (fun _ => true) 0 [[1], [2]] = ([], false, [[1], [2]]) :=
  ⟨(C6_writer_capacity_fifo [[0], [1], [2], [3], [4], [5], [6], [7], [8], [9]] [10]
      (fun _ => true) 0).1 (by decide),
   (C6_writer_capacity_fifo [[1], [2]] [] (fun _ => true) 0).2.2 (fun _ => rfl)⟩

/-- C9: a transport write failure ends the drain with `isWriting` still
`true` (conjunct 1); from such a state every further `write` call only
appends to the bounded queue and never writes a byte (conjunct 2), and
`clearQueue` empties the backlog without resetting `isWriting`
(conjunct 3). -/
theorem C9_writer_stuck_after_write_failure (st : SerialWriter) (ok : ℕ → Bool)
    (queue : List (List ℕ)) (k : ℕ) (ds : List (List ℕ)) :
    ((∃ j, j < queue.length ∧ ok (k + j) = false) →
      (processQueueFrom ok k queue).2.1 = true) ∧
    (st.isWriting = true →
      writerWriteSeq st ok ds =
        ({ queue := ds.foldl writeEnqueue st.queue, isWriting := true }, [])) ∧
    (clearQueue st).isWriting = st.isWriting := by
  refine ⟨?_, ?_, rfl⟩
  · intro ⟨j, hj, hfail⟩
    induction queue generalizing k j with
    | nil => simp at hj
    | cons d rest ih =>
      by_cases hk : ok k = true
      · simp only [processQueueFrom, hk, if_true]
        rcases j with _ | j
        · rw [Nat.add_zero] at hfail; rw [hfail] at hk; exact absurd hk (by simp)
        · exact ih (k + 1) j (by simp only [List.length_cons] at hj; omega)
            (by rw [show k + 1 + j = k + (j + 1) by omega]; exact hfail)
      · simp [processQueueFrom, hk]
  · intro hw
    induction ds generalizing st with
    | nil =>
      simp only [writerWriteSeq, List.foldl_nil]
      cases st with
      | mk q w => cases hw; rfl
    | cons d ds ih =>
      simp only [writerWriteSeq, writerWrite, hw, if_true, List.foldl_cons]
      rw [ih { queue := writeEnqueue st.queue d, isWriting := true } rfl]
      simp

/-- Witness for C9: a failing transport on a singleton queue leaves the
flag set; a later write from a stuck writer produces no transport
writes. -/
theorem C9_writer_stuck_after_write_failure_witness :
    (processQueueFrom (fun _ => false) 0 [[5]]).2.1 = true ∧
    writerWriteSeq { queue := [[5]], isWriting := true } (fun _ => false) [[7]] =
      ({ queue := [[5], [7]], isWriting := true }, []) :=
  ⟨(C9_writer_stuck_after_write_failure { queue := [], isWriting := false }
      (fun _ => false) [[5]] 0 []).1 ⟨0, by decide, rfl⟩,
   by
    have := (C9_writer_stuck_after_write_failure { queue := [[5]], isWriting := true }
      (fun _ => false) [] 0 [[7]]).2.1 rfl
    simpa [writeEnqueue, maxQueueSize] using this⟩

end OpenArm

namespace OpenArm

/-- The event trace of a run of the retry loop in which every attempt
fails, starting at attempt number `attempt`: one fetch per attempt with
a delay after each failure except the last. -/
def failTrace (d : ℕ) (attempt : ℕ) : ℕ → List LoadEvent
  | 0 => []
  | 1 => [.fetchAttempt attempt]
  | n + 2 => .fetchAttempt attempt :: .delay d :: failTrace d (attempt + 1) (n + 1)

theorem loadLoop_step (d : ℕ) (oc : ℕ → FetchOutcome) (attempt m : ℕ)
    (e : AttemptError) (h : attemptResult (oc attempt) = .error e) :
    loadLoop d oc attempt (m + 2) =
      ((loadLoop d oc (attempt + 1) (m + 1)).1,
       .fetchAttempt attempt :: .delay d :: (loadLoop d oc (attempt + 1) (m + 1)).2) := by
  conv_lhs => rw [loadLoop]
  rw [h]
  simp

theorem loadLoop_all_fail (d : ℕ) (oc : ℕ → FetchOutcome) (f : ℕ → AttemptError)
    (hfail : ∀ k, attemptResult (oc k) = .error (f k)) :
    ∀ n attempt, 1 ≤ n →
      loadLoop d oc attempt n = (.fault (f (attempt + n - 1)), failTrace d attempt n) := by
  intro n
  induction n with
  | zero => intro _ h; omega
  | succ m ih =>
    intro attempt _
    rcases Nat.eq_zero_or_pos m with hm | hm
    · subst hm
      simp [loadLoop, hfail attempt, failTrace]
    · have hm2 : ∃ m', m = m' + 1 := ⟨m - 1, by omega⟩
      obtain ⟨m', rfl⟩ := hm2
      rw [loadLoop_step d oc attempt m' (f attempt) (hfail attempt),
        ih (attempt + 1) (by omega)]
      have harg : attempt + 1 + (m' + 1) - 1 = attempt + (m' + 1 + 1) - 1 := by omega
      have htr : LoadEvent.fetchAttempt attempt :: LoadEvent.delay d ::
          failTrace d (attempt + 1) (m' + 1) = failTrace d attempt (m' + 1 + 1) := rfl
      simp [harg, htr]

/-- C7: with no fresh cached manifest, when every attempt fails
(network error, HTTP error, bad JSON, or a structurally invalid body —
the last of which is an in-loop failure like any fetch error),
`loadManifest` performs exactly `retryAttempts` fetch attempts with one
`retryDelay` sleep between consecutive attempts and none after the last,
then fails with a fault carrying the last attempt's error, leaving the
loader state unchanged. -/
theorem C7_loadManifest_retry_exhaustion (cfg : LoaderConfig) (st : LoaderState)
    (now : ℕ) (oc : ℕ → FetchOutcome) (f : ℕ → AttemptError) (r : RawManifest)
    (hfail : ∀ k, attemptResult (oc k) = .error (f k))
    (hstale : ∀ m ts, st.manifestCache = some (m, ts) → cfg.cacheTimeout ≤ now - ts)
    (hn : 1 ≤ cfg.retryAttempts) :
    loadManifest cfg st now oc =
      (.fault (f cfg.retryAttempts), st,
       failTrace cfg.retryDelay 1 cfg.retryAttempts) ∧
    (¬ validateManifest r → attemptResult (.body r) = .error .invalidManifest) := by
  constructor
  · have hloop := loadLoop_all_fail cfg.retryDelay oc f hfail cfg.retryAttempts 1 hn
    have harith : 1 + cfg.retryAttempts - 1 = cfg.retryAttempts := by omega
    rw [harith] at hloop
    cases hc : st.manifestCache with
    | none => simp [loadManifest, hc, hloop]
    | some p =>
      obtain ⟨m, ts⟩ := p
      have hts := hstale m ts hc
      have hlt : ¬ (now - ts < cfg.cacheTimeout) := by omega
      simp [loadManifest, hc, hloop, hlt]
  · intro hv
    simp [attemptResult, hv]

/-- Witness for C7: three attempts against a server that always returns
HTTP 500, then one returning a body with a missing `generated` field. -/
theorem C7_loadManifest_retry_exhaustion_witness :
    loadManifest
      { publicUrl := "https://assets.openarm.dev", cacheTimeout := 300000,
        retryAttempts := 3, retryDelay := 1000 }
      { manifest := none, manifestCache := none, assetUrlCache := [] }
      0 (fun _ => .httpError 500) =
      (.fault (.httpError 500), { manifest := none, manifestCache := none, assetUrlCache := [] },
       [.fetchAttempt 1, .delay 1000, .fetchAttempt 2, .delay 1000, .fetchAttempt 3]) ∧
    attemptResult (.body ({ version := some "1", generated := none,
                            processor := none, assets := some [] } : RawManifest)) =
      .error .invalidManifest := by
  have h := C7_loadManifest_retry_exhaustion
    { publicUrl := "https://assets.openarm.dev", cacheTimeout := 300000,
      retryAttempts := 3, retryDelay := 1000 }
    { manifest := none, manifestCache := none, assetUrlCache := [] }
    0 (fun _ => .httpError 500) (fun _ => .httpError 500)
    { version := some "1", generated := none, processor := none, assets := some [] }
    (fun _ => rfl) (fun m ts hmt => by cases hmt) (by decide)
  exact ⟨by rw [h.1]; rfl, h.2 (by decide)⟩

end OpenArm

namespace OpenArm

/-- C8: `getAssetUrl` returns the per-name cached URL without any search
or fetch on a cache hit (and is then independent of the network, as it
is whenever a manifest is already held); on a miss with a manifest held
it takes the first entry whose `original` equals the queried name,
failing with an asset-not-found fault naming the identifier when none
matches; a matching entry resolves to its explicit non-empty `url`, else
to `publicUrl/processed` for the entry-point type `application/xml` and
to `publicUrl/assets/processed` otherwise, and the resolved URL is
stored in the per-name cache; with no manifest held it first runs
`loadManifest` and continues in the updated state. -/
theorem C8_getAssetUrl_resolution (cfg : LoaderConfig) (st : LoaderState) (now : ℕ)
    (oc oc' : ℕ → FetchOutcome) (name u : String) (m : RawManifest)
    (entries : List AssetInfo) (a : AssetInfo) :
    (lookupCache st.assetUrlCache name = some u →
      getAssetUrl cfg st now oc name = (.ok u, st)) ∧
    ((st.manifest).isSome →
      getAssetUrl cfg st now oc name = getAssetUrl cfg st now oc' name) ∧
    (lookupCache st.assetUrlCache name = none → st.manifest = some m →
      m.assets = some entries → entries.find? (fun e => e.original = name) = none →
      getAssetUrl cfg st now oc name = (.notFound name, st)) ∧
    (lookupCache st.assetUrlCache name = none → st.manifest = some m →
      m.assets = some entries → entries.find? (fun e => e.original = name) = some a →
      getAssetUrl cfg st now oc name =
        (.ok (resolveEntryUrl cfg.publicUrl a),
         { st with assetUrlCache :=
             (name, resolveEntryUrl cfg.publicUrl a) :: st.assetUrlCache })) ∧
    (a.url = some u → u ≠ "" → resolveEntryUrl cfg.publicUrl a = u) ∧
    (a.url = none → a.type = "application/xml" →
      resolveEntryUrl cfg.publicUrl a = cfg.publicUrl ++ "/" ++ a.processed) ∧
    (a.url = none → a.type ≠ "application/xml" →
      resolveEntryUrl cfg.publicUrl a = cfg.publicUrl ++ "/assets/" ++ a.processed) ∧
    (lookupCache st.assetUrlCache name = none → st.manifest = none →
      st.manifestCache = none →
      (loadLoop cfg.retryDelay oc 1 cfg.retryAttempts).1 = .success m →
      getAssetUrl cfg st now oc name =
        getAssetUrl cfg { st with manifest := some m, manifestCache := some (m, now) }
          now oc name) ∧
    (lookupCache st.assetUrlCache name = none → st.manifest = none →
      st.manifestCache = none →
      (loadLoop cfg.retryDelay oc 1 cfg.retryAttempts).1 = .fault (.httpError 500) →
      getAssetUrl cfg st now oc name = (.loadFault (.httpError 500), st)) := by
  refine ⟨?_, ?_, ?_, ?_, ?_, ?_, ?_, ?_, ?_⟩
  · intro hcache
    simp [getAssetUrl, hcache]
  · intro hsome
    obtain ⟨mm, hmm⟩ := Option.isSome_iff_exists.mp hsome
    cases hc : lookupCache st.assetUrlCache name <;> simp [getAssetUrl, hc, hmm]
  · intro hcache hman hassets hfind
    simp [getAssetUrl, hcache, hman, hassets, hfind]
  · intro hcache hman hassets hfind
    simp [getAssetUrl, hcache, hman, hassets, hfind]
  · intro hurl hne
    simp [resolveEntryUrl, hurl, hne]
  · intro hurl htype
    simp [resolveEntryUrl, constructAssetUrl, hurl, htype]
  · intro hurl htype
    simp [resolveEntryUrl, constructAssetUrl, hurl, htype]
  · intro hcache hman hmc hload
    have : loadManifest cfg st now oc =
        (.success m, { st with manifest := some m, manifestCache := some (m, now) },
         (loadLoop cfg.retryDelay oc 1 cfg.retryAttempts).2) := by
      simp [loadManifest, hmc, hload]
    simp [getAssetUrl, hcache, hman, this]
  · intro hcache hman hmc hload
    have : loadManifest cfg st now oc =
        (.fault (.httpError 500), st,
         (loadLoop cfg.retryDelay oc 1 cfg.retryAttempts).2) := by
      simp [loadManifest, hmc, hload]
    simp [getAssetUrl, hcache, hman, this]

/-- Witness for C8: a two-entry manifest held in memory; the queried
name matches the second entry, a mesh without explicit URL, resolving
under `assets/`. -/
theorem C8_getAssetUrl_resolution_witness :
    getAssetUrl
      { publicUrl := "https://assets.openarm.dev", cacheTimeout := 300000,
        retryAttempts := 3, retryDelay := 1000 }
      { manifest := some { version := some "1", generated := some "t",
                           processor := none,
                           assets := some
                             [{ original := "robot.urdf", processed := "robot.abc.urdf",
                                hash := "abc", size := 10, type := "application/xml",
                                url := none, path := none },
                              { original := "arm1.stl", processed := "arm1.def.stl",
                                hash := "def", size := 20, type := "model/stl",
                                url := none, path := none }] },
        manifestCache := none, assetUrlCache := [] }
      0 (fun _ => .netError) "arm1.stl" =
      (.ok "https://assets.openarm.dev/assets/arm1.def.stl",
       { manifest := some { version := some "1", generated := some "t",
                            processor := none,
                            assets := some
                              [{ original := "robot.urdf", processed := "robot.abc.urdf",
                                 hash := "abc", size := 10, type := "application/xml",
                                 url := none, path := none },
                               { original := "arm1.stl", processed := "arm1.def.stl",
                                 hash := "def", size := 20, type := "model/stl",
                                 url := none, path := none }] },
         manifestCache := none,
         assetUrlCache := [("arm1.stl", "https://assets.openarm.dev/assets/arm1.def.stl")] }) := by
  have h := (C8_getAssetUrl_resolution
    { publicUrl := "https://assets.openarm.dev", cacheTimeout := 300000,
      retryAttempts := 3, retryDelay := 1000 }
    { manifest := some { version := some "1", generated := some "t",
                         processor := none,
                         assets := some
                           [{ original := "robot.urdf", processed := "robot.abc.urdf",
                              hash := "abc", size := 10, type := "application/xml",
                              url := none, path := none },
                            { original := "arm1.stl", processed := "arm1.def.stl",
                              hash := "def", size := 20, type := "model/stl",
                              url := none, path := none }] },
      manifestCache := none, assetUrlCache := [] }
    0 (fun _ => .netError) (fun _ => .netError) "arm1.stl" ""
    { version := some "1", generated := some "t", processor := none,
      assets := some
        [{ original := "robot.urdf", processed := "robot.abc.urdf",
           hash := "abc", size := 10, type := "application/xml",
           url := none, path := none },
         { original := "arm1.stl", processed := "arm1.def.stl",
           hash := "def", size := 20, type := "model/stl",
           url := none, path := none }] }
    [{ original := "robot.urdf", processed := "robot.abc.urdf",
       hash := "abc", size := 10, type := "application/xml",
       url := none, path := none },
     { original := "arm1.stl", processed := "arm1.def.stl",
       hash := "def", size := 20, type := "model/stl",
       url := none, path := none }]
    { original := "arm1.stl", processed := "arm1.def.stl",
      hash := "def", size := 20, type := "model/stl",
      url := none, path := none }).2.2.2.1
    (by decide) rfl rfl (by decide)
  rw [h]
  rfl

end OpenArm

namespace OpenArm

theorem processBytes_append (st : SerialReader) (xs ys : List ℕ) :
    processBytes st (xs ++ ys) =
      ((processBytes (processBytes st xs).1 ys).1,
       (processBytes st xs).2 ++ (processBytes (processBytes st xs).1 ys).2) := by
  induction xs generalizing st with
  | nil => simp [processBytes]
  | cons b rest ih => simp [processBytes, ih, List.append_assoc]

/-- Chunking is irrelevant: the read loop over chunks equals a single
byte-at-a-time pass over their concatenation. -/
theorem runChunks_join (st : SerialReader) (chunks : List (List ℕ)) :
    runChunks st chunks = processBytes st chunks.flatten := by
  induction chunks generalizing st with
  | nil => simp [runChunks, processBytes]
  | cons c cs ih => simp [runChunks, List.flatten, processBytes_append, ih]

theorem parsePacket_ok_props (b : List ℕ) (p : Packet) (h : parsePacket b = .ok p) :
    p.sync = SYNC_WORD ∧ p.payload.length = p.length := by
  simp only [parsePacket] at h
  split_ifs at h with h1 h2 h3
  simp only [Except.ok.injEq] at h
  subst h
  constructor
  · show b.getD 0 0 * 256 + b.getD 1 0 = SYNC_WORD
    exact not_not.mp h2
  · show (List.take (b.getD 2 0) (List.drop 4 b)).length = b.getD 2 0
    simp only [List.length_take, List.length_drop]
    omega

theorem processBytes_mem_emit (data : List ℕ) (st : SerialReader) (e : Emit)
    (hmem : e ∈ (processBytes st data).2) : ∃ st1, e = processPacket st1 := by
  induction data generalizing st with
  | nil => cases hmem
  | cons b rest ih =>
    simp only [processBytes, List.mem_append] at hmem
    rcases hmem with hl | hr
    · cases hst : st.state <;> simp only [stepByte, hst] at hl
      · cases hl
      · cases hl
      · cases hl
      · simp only [handleReadingPayload] at hl
        split at hl
        · simp at hl
          exact ⟨_, hl⟩
        · cases hl
    · exact ih _ hr

/-- C1 is wrong on the code: `parsePacket` never compares the checksum
byte against the XOR-fold, so the reader delivers a well-framed packet
whose checksum byte (0xFF) differs from the XOR-fold of
command ‖ payload (0x01): the invariant-violating packet reaches the
packet sink. -/
theorem C1_checksum_unchecked_counterexample :
    (processBytes initReader [0xaa, 0x55, 0x00, 0x01, 0xff]).2 =
      [.packet { sync := 0xaa55, length := 0, command := 0x01,
                 payload := [], checksum := 0xff }] ∧
    verifyChecksum (0x01 :: ([] : List ℕ)) 0xff = false := by decide

/-- C1 amended: every packet the reader delivers comes from a successful
`parsePacket` run on the buffered frame, and hence satisfies the framing
invariants `sync = 0xAA55` and `payload.length = length`; the checksum
equation `checksum = XOR-fold(command ‖ payload)` is NOT enforced, and
packets violating it are delivered rather than rejected. -/
theorem C1_delivered_packets_are_parsed_frames (chunks : List (List ℕ)) (p : Packet)
    (hmem : Emit.packet p ∈ (runChunks initReader chunks).2) :
    (∃ buf, parsePacket buf = .ok p) ∧
    p.sync = SYNC_WORD ∧ p.payload.length = p.length := by
  rw [runChunks_join] at hmem
  obtain ⟨st1, he⟩ := processBytes_mem_emit _ _ _ hmem
  unfold processPacket at he
  cases hp : parsePacket (st1.buffer.take st1.bufferIndex) with
  | ok q =>
    rw [hp] at he
    cases he
    exact ⟨⟨_, hp⟩, parsePacket_ok_props _ _ hp⟩
  | error err =>
    rw [hp] at he
    cases he

/-- Witness for C1 (amended): the frame delivered in the counterexample
stream satisfies the framing invariants. -/
theorem C1_delivered_packets_are_parsed_frames_witness :
    ({ sync := 0xaa55, length := 0, command := 0x01,
       payload := [], checksum := 0xff } : Packet).sync = SYNC_WORD :=
  (C1_delivered_packets_are_parsed_frames [[0xaa, 0x55, 0x00, 0x01, 0xff]]
    { sync := 0xaa55, length := 0, command := 0x01, payload := [], checksum := 0xff }
    (by decide)).2.1

end OpenArm

namespace OpenArm

theorem payload_fill (bs : List ℕ) (st : SerialReader)
    (hstate : st.state = .readingPayload)
    (hlen : st.bufferIndex + bs.length = 4 + st.expectedLength + 1)
    (hne : bs ≠ []) :
    processBytes st bs =
      (resetState { st with buffer := listOverwrite st.buffer st.bufferIndex bs,
                            bufferIndex := 4 + st.expectedLength + 1 },
       [processPacket { st with buffer := listOverwrite st.buffer st.bufferIndex bs,
                                bufferIndex := 4 + st.expectedLength + 1 }]) := by
  induction bs generalizing st with
  | nil => exact absurd rfl hne
  | cons b rest ih =>
    cases rest with
    | nil =>
      have hidx : st.bufferIndex + 1 = 4 + st.expectedLength + 1 := by
        simp only [List.length_cons, List.length_nil] at hlen; omega
      simp only [processBytes, stepByte, hstate, handleReadingPayload, listOverwrite,
        hidx, le_refl, if_true, List.append_nil]
    | cons b2 rest2 =>
      have hlt : ¬ (4 + st.expectedLength + 1 ≤ st.bufferIndex + 1) := by
        simp only [List.length_cons] at hlen; omega
      have hrec := ih { st with buffer := st.buffer.set st.bufferIndex b,
                                bufferIndex := st.bufferIndex + 1 }
        hstate (by simp only [List.length_cons] at hlen ⊢; omega) (by simp)
      have hstep : stepByte st b =
          ({ st with buffer := st.buffer.set st.bufferIndex b,
                     bufferIndex := st.bufferIndex + 1 }, []) := by
        simp [stepByte, hstate, handleReadingPayload, hlt]
      show ((processBytes (stepByte st b).1 (b2 :: rest2)).1,
            (stepByte st b).2 ++ (processBytes (stepByte st b).1 (b2 :: rest2)).2) = _
      rw [hstep]
      simp only [List.nil_append]
      rw [hrec]
      simp [listOverwrite]

end OpenArm

namespace OpenArm

theorem processBytes_cons (st : SerialReader) (b : ℕ) (rest : List ℕ) :
    processBytes st (b :: rest) =
      ((processBytes (stepByte st b).1 rest).1,
       (stepByte st b).2 ++ (processBytes (stepByte st b).1 rest).2) := rfl

theorem getElem?_set_self (l : List ℕ) (i x : ℕ) (h : i < l.length) :
    (l.set i x)[i]? = some x := by
  simp [List.getElem?_set_self, h]

theorem getElem?_set_ne (l : List ℕ) (i j x : ℕ) (h : i ≠ j) :
    (l.set i x)[j]? = l[j]? := by
  simp [List.getElem?_set_ne, h]

theorem sync_two (st : SerialReader) (hstate : st.state = .syncing)
    (hblen : st.buffer.length = PACKET_MAX_SIZE)
    (hidx : st.bufferIndex = 0 ∨ st.bufferIndex = 1) :
    ∃ B, processBytes st [0xaa, 0x55] =
        ({ state := .readingHeader, buffer := B, bufferIndex := 2,
           expectedLength := st.expectedLength }, []) ∧
      B.length = PACKET_MAX_SIZE ∧ B.getD 0 0 = 0xaa ∧ B.getD 1 0 = 0x55 := by
  have h256 : st.buffer.length = 256 := hblen
  rcases hidx with h0 | h1
  · -- window empty: the two bytes are stored and match immediately
    have hg0 : ((st.buffer.set 0 0xaa).set 1 0x55)[0]? = some 0xaa := by
      rw [getElem?_set_ne _ _ _ _ (by omega), getElem?_set_self _ _ _ (by omega)]
    have hg1 : ((st.buffer.set 0 0xaa).set 1 0x55)[1]? = some 0x55 := by
      rw [getElem?_set_self _ _ _ (by simp [h256])]
    refine ⟨(st.buffer.set 0 0xaa).set 1 0x55, ?_, ?_, ?_, ?_⟩
    · have hs1 : stepByte st 0xaa =
          ({ st with buffer := st.buffer.set 0 0xaa, bufferIndex := 1 }, []) := by
        simp [stepByte, hstate, handleSyncing, h0]
      have hs2 : stepByte
            { st with buffer := st.buffer.set 0 0xaa, bufferIndex := 1 } 0x55 =
          ({ state := .readingHeader, buffer := (st.buffer.set 0 0xaa).set 1 0x55,
             bufferIndex := 2, expectedLength := st.expectedLength }, []) := by
        simp [stepByte, hstate, handleSyncing, hg0, hg1, SYNC_WORD]
      rw [processBytes_cons, hs1]
      simp only []
      rw [processBytes_cons, hs2]
      simp [processBytes]
    · simp [h256, PACKET_MAX_SIZE]
    · simp [List.getD_eq_getElem?_getD, hg0]
    · simp [List.getD_eq_getElem?_getD, hg1]
  · -- one stale byte held: the 0xAA cannot complete a sync word, the
    -- window shifts, and the pair 0xAA 0x55 then matches
    have hb1aa : (st.buffer.set 1 0xaa)[1]? = some 0xaa := by
      rw [getElem?_set_self _ _ _ (by omega)]
    have hg0 : (((st.buffer.set 1 0xaa).set 0 0xaa).set 1 0x55)[0]? = some 0xaa := by
      rw [getElem?_set_ne _ _ _ _ (by omega), getElem?_set_self _ _ _ (by simp [h256])]
    have hg1 : (((st.buffer.set 1 0xaa).set 0 0xaa).set 1 0x55)[1]? = some 0x55 := by
      rw [getElem?_set_self _ _ _ (by simp [h256])]
    refine ⟨((st.buffer.set 1 0xaa).set 0 0xaa).set 1 0x55, ?_, ?_, ?_, ?_⟩
    · have hnomatch : (st.buffer.set 1 0xaa).getD 0 0 * 256 +
          (st.buffer.set 1 0xaa).getD 1 0 ≠ SYNC_WORD := by
        rw [List.getD_eq_getElem?_getD, List.getD_eq_getElem?_getD, hb1aa,
          getElem?_set_ne _ _ _ _ (by omega)]
        simp only [Option.getD_some]
        unfold SYNC_WORD
        omega
      have hs1 : stepByte st 0xaa =
          ({ st with buffer := (st.buffer.set 1 0xaa).set 0 0xaa,
                     bufferIndex := 1 }, []) := by
        simp only [stepByte, hstate, handleSyncing, h1]
        rw [if_pos (by omega), if_neg hnomatch, List.getD_eq_getElem?_getD, hb1aa]
        rfl
      have hs2 : stepByte
            { st with buffer := (st.buffer.set 1 0xaa).set 0 0xaa,
                      bufferIndex := 1 } 0x55 =
          ({ state := .readingHeader,
             buffer := ((st.buffer.set 1 0xaa).set 0 0xaa).set 1 0x55,
             bufferIndex := 2, expectedLength := st.expectedLength }, []) := by
        simp [stepByte, hstate, handleSyncing, hg0, hg1, SYNC_WORD]
      rw [processBytes_cons, hs1]
      simp only []
      rw [processBytes_cons, hs2]
      simp [processBytes]
    · simp [h256, PACKET_MAX_SIZE]
    · simp [List.getD_eq_getElem?_getD, hg0]
    · simp [List.getD_eq_getElem?_getD, hg1]

theorem header_two (st : SerialReader) (L C : ℕ) (hstate : st.state = .readingHeader)
    (hidx : st.bufferIndex = 2) (hblen : st.buffer.length = PACKET_MAX_SIZE) :
    processBytes st [L, C] =
      ({ state := .readingPayload, buffer := (st.buffer.set 2 L).set 3 C,
         bufferIndex := 4, expectedLength := L }, []) := by
  have h256 : st.buffer.length = 256 := hblen
  have hgl : ((st.buffer.set 2 L).set 3 C)[2]? = some L := by
    rw [getElem?_set_ne _ _ _ _ (by omega), getElem?_set_self _ _ _ (by omega)]
  have hs1 : stepByte st L =
      ({ st with buffer := st.buffer.set 2 L, bufferIndex := 3 }, []) := by
    simp [stepByte, hstate, handleReadingHeader, hidx]
  have hs2 : stepByte { st with buffer := st.buffer.set 2 L, bufferIndex := 3 } C =
      ({ state := .readingPayload, buffer := (st.buffer.set 2 L).set 3 C,
         bufferIndex := 4, expectedLength := L }, []) := by
    simp [stepByte, hstate, handleReadingHeader, hgl]
  rw [processBytes_cons, hs1]
  simp only []
  rw [processBytes_cons, hs2]
  simp [processBytes]

end OpenArm

namespace OpenArm

theorem parsePacket_good (L C ck : ℕ) (payload : List ℕ) (hplen : payload.length = L) :
    parsePacket (0xaa :: 0x55 :: L :: C :: (payload ++ [ck])) =
      .ok { sync := 0xaa55, length := L, command := C,
            payload := payload, checksum := ck } := by
  have hlen : (0xaa :: 0x55 :: L :: C :: (payload ++ [ck])).length = L + 5 := by
    simp [hplen]
  simp only [parsePacket]
  rw [if_neg (by omega)]
  have hg0 : (0xaa :: 0x55 :: L :: C :: (payload ++ [ck])).getD 0 0 = 0xaa := rfl
  have hg1 : (0xaa :: 0x55 :: L :: C :: (payload ++ [ck])).getD 1 0 = 0x55 := rfl
  have hsync : (0xaa :: 0x55 :: L :: C :: (payload ++ [ck])).getD 0 0 * 256 +
      (0xaa :: 0x55 :: L :: C :: (payload ++ [ck])).getD 1 0 = SYNC_WORD := by
    rw [hg0, hg1]
    decide
  rw [if_neg (not_not.mpr hsync)]
  have hgl : (0xaa :: 0x55 :: L :: C :: (payload ++ [ck])).getD 2 0 = L := rfl
  rw [hgl]
  rw [if_neg (by omega)]
  have hdrop : (0xaa :: 0x55 :: L :: C :: (payload ++ [ck])).drop 4 = payload ++ [ck] := rfl
  have htake : (payload ++ [ck]).take L = payload := by
    rw [← hplen]
    exact List.take_left _ _
  have hck : (0xaa :: 0x55 :: L :: C :: (payload ++ [ck])).getD (4 + L) 0 = ck := by
    rw [show 4 + L = (L + 3) + 1 from by omega, List.getD_cons_succ]
    rw [show L + 3 = (L + 2) + 1 from by omega, List.getD_cons_succ]
    rw [show L + 2 = (L + 1) + 1 from by omega, List.getD_cons_succ]
    rw [List.getD_cons_succ]
    rw [List.getD_append_right _ _ _ _ (by omega)]
    simp [hplen]
  rw [hck]
  simp only [hsync, hdrop, htake, Except.ok.injEq]
  rfl

theorem frame_deliver (st : SerialReader) (L C ck : ℕ) (payload : List ℕ)
    (hstate : st.state = .syncing) (hidx : st.bufferIndex = 0 ∨ st.bufferIndex = 1)
    (hblen : st.buffer.length = PACKET_MAX_SIZE)
    (hplen : payload.length = L) (hsmall : 4 + L + 1 ≤ PACKET_MAX_SIZE) :
    ∃ st', processBytes st (0xaa :: 0x55 :: L :: C :: (payload ++ [ck])) =
        (st', [.packet { sync := 0xaa55, length := L, command := C,
                         payload := payload, checksum := ck }]) ∧
      st'.state = .syncing ∧ st'.bufferIndex = 0 ∧
      st'.buffer.length = PACKET_MAX_SIZE := by
  have hP : PACKET_MAX_SIZE = 256 := rfl
  obtain ⟨B, hsync, hBlen, hB0, hB1⟩ := sync_two st hstate hblen hidx
  have hB256 : B.length = 256 := by rw [hBlen, hP]
  have hfill := payload_fill (payload ++ [ck])
    { state := .readingPayload, buffer := (B.set 2 L).set 3 C,
      bufferIndex := 4, expectedLength := L }
    rfl (by simp only [List.length_append, List.length_cons, List.length_nil, hplen]; omega)
    (by simp)
  simp only [] at hfill
  have htake : (listOverwrite ((B.set 2 L).set 3 C) 4 (payload ++ [ck])).take
      (4 + L + 1) = [0xaa, 0x55, L, C] ++ (payload ++ [ck]) := by
    have harith : 4 + L + 1 = 4 + (payload ++ [ck]).length := by simp [hplen]; omega
    rw [harith, listOverwrite_take _ _ _
      (by simp only [List.length_append, List.length_cons, List.length_nil,
            List.length_set, hB256, hplen]; omega)]
    congr 1
    rw [take_four_eq _ (by simp [hB256])]
    rw [getD_set_ne _ _ _ _ (by omega), getD_set_ne _ _ _ _ (by omega), hB0,
        getD_set_ne _ _ _ _ (by omega), getD_set_ne _ _ _ _ (by omega), hB1,
        getD_set_ne _ _ _ _ (by omega), getD_set_eq _ _ _ (by omega),
        getD_set_eq _ _ _ (by simp [hB256])]
  have hpp : processPacket
      { state := ReaderState.readingPayload,
        buffer := listOverwrite ((B.set 2 L).set 3 C) 4 (payload ++ [ck]),
        bufferIndex := 4 + L + 1, expectedLength := L } =
      .packet { sync := 0xaa55, length := L, command := C,
                payload := payload, checksum := ck } := by
    unfold processPacket
    show (match parsePacket ((listOverwrite ((B.set 2 L).set 3 C) 4
        (payload ++ [ck])).take (4 + L + 1)) with
      | .ok p => Emit.packet p
      | .error e => Emit.err e) = _
    rw [htake]
    rw [show ([0xaa, 0x55, L, C] ++ (payload ++ [ck])) =
      (0xaa :: 0x55 :: L :: C :: (payload ++ [ck])) from rfl]
    rw [parsePacket_good L C ck payload hplen]
  refine ⟨resetState
      { state := ReaderState.readingPayload,
        buffer := listOverwrite ((B.set 2 L).set 3 C) 4 (payload ++ [ck]),
        bufferIndex := 4 + L + 1, expectedLength := L }, ?_, rfl, rfl, ?_⟩
  · have hshape : (0xaa :: 0x55 :: L :: C :: (payload ++ [ck])) =
        [0xaa, 0x55] ++ ([L, C] ++ (payload ++ [ck])) := rfl
    rw [hshape, processBytes_append, hsync]
    simp only []
    rw [processBytes_append, header_two _ L C rfl rfl hBlen]
    simp only []
    rw [hfill]
    simp only [List.nil_append]
    rw [hpp]
  · show (listOverwrite ((B.set 2 L).set 3 C) 4 (payload ++ [ck])).length =
      PACKET_MAX_SIZE
    simp [length_listOverwrite, hB256, hP]

end OpenArm

namespace OpenArm

theorem frame_overflow (st : SerialReader) (L C ck : ℕ) (payload : List ℕ)
    (hstate : st.state = .syncing) (hidx : st.bufferIndex = 0 ∨ st.bufferIndex = 1)
    (hblen : st.buffer.length = PACKET_MAX_SIZE)
    (hplen : payload.length = L) (hbig : 251 < L) :
    ∃ st', processBytes st (0xaa :: 0x55 :: L :: C :: (payload ++ [ck])) =
        (st', [.err .incompletePacket]) ∧
      st'.state = .syncing ∧ st'.bufferIndex = 0 ∧
      st'.buffer.length = PACKET_MAX_SIZE := by
  have hP : PACKET_MAX_SIZE = 256 := rfl
  obtain ⟨B, hsync, hBlen, hB0, hB1⟩ := sync_two st hstate hblen hidx
  have hB256 : B.length = 256 := by rw [hBlen, hP]
  have hfill := payload_fill (payload ++ [ck])
    { state := .readingPayload, buffer := (B.set 2 L).set 3 C,
      bufferIndex := 4, expectedLength := L }
    rfl (by simp only [List.length_append, List.length_cons, List.length_nil, hplen]; omega)
    (by simp)
  simp only [] at hfill
  have hFlen : (listOverwrite ((B.set 2 L).set 3 C) 4 (payload ++ [ck])).length = 256 := by
    rw [length_listOverwrite]
    simp [hB256]
  have hg0F : (listOverwrite ((B.set 2 L).set 3 C) 4 (payload ++ [ck])).getD 0 0 = 0xaa := by
    rw [getD_listOverwrite_lt _ _ _ _ (by omega), getD_set_ne _ _ _ _ (by omega),
      getD_set_ne _ _ _ _ (by omega), hB0]
  have hg1F : (listOverwrite ((B.set 2 L).set 3 C) 4 (payload ++ [ck])).getD 1 0 = 0x55 := by
    rw [getD_listOverwrite_lt _ _ _ _ (by omega), getD_set_ne _ _ _ _ (by omega),
      getD_set_ne _ _ _ _ (by omega), hB1]
  have hg2F : (listOverwrite ((B.set 2 L).set 3 C) 4 (payload ++ [ck])).getD 2 0 = L := by
    rw [getD_listOverwrite_lt _ _ _ _ (by omega), getD_set_ne _ _ _ _ (by omega),
      getD_set_eq _ _ _ (by omega)]
  have hparse : parsePacket
      (listOverwrite ((B.set 2 L).set 3 C) 4 (payload ++ [ck])) =
      .error .incompletePacket := by
    simp only [parsePacket]
    rw [if_neg (by rw [hFlen]; omega)]
    have hsyncF : (listOverwrite ((B.set 2 L).set 3 C) 4 (payload ++ [ck])).getD 0 0 * 256 +
        (listOverwrite ((B.set 2 L).set 3 C) 4 (payload ++ [ck])).getD 1 0 = SYNC_WORD := by
      rw [hg0F, hg1F]
      decide
    rw [if_neg (not_not.mpr hsyncF)]
    rw [if_pos (by rw [hFlen, hg2F]; omega)]
  have htake : (listOverwrite ((B.set 2 L).set 3 C) 4 (payload ++ [ck])).take (4 + L + 1) =
      listOverwrite ((B.set 2 L).set 3 C) 4 (payload ++ [ck]) := by
    apply List.take_of_length_le
    rw [hFlen]
    omega
  have hpp : processPacket
      { state := ReaderState.readingPayload,
        buffer := listOverwrite ((B.set 2 L).set 3 C) 4 (payload ++ [ck]),
        bufferIndex := 4 + L + 1, expectedLength := L } =
      .err .incompletePacket := by
    unfold processPacket
    show (match parsePacket ((listOverwrite ((B.set 2 L).set 3 C) 4
        (payload ++ [ck])).take (4 + L + 1)) with
      | .ok p => Emit.packet p
      | .error e => Emit.err e) = _
    rw [htake, hparse]
  refine ⟨resetState
      { state := ReaderState.readingPayload,
        buffer := listOverwrite ((B.set 2 L).set 3 C) 4 (payload ++ [ck]),
        bufferIndex := 4 + L + 1, expectedLength := L }, ?_, rfl, rfl, ?_⟩
  · have hshape : (0xaa :: 0x55 :: L :: C :: (payload ++ [ck])) =
        [0xaa, 0x55] ++ ([L, C] ++ (payload ++ [ck])) := rfl
    rw [hshape, processBytes_append, hsync]
    simp only []
    rw [processBytes_append, header_two _ L C rfl rfl hBlen]
    simp only []
    rw [hfill]
    simp only [List.nil_append]
    rw [hpp]
  · show (listOverwrite ((B.set 2 L).set 3 C) 4 (payload ++ [ck])).length =
      PACKET_MAX_SIZE
    rw [hFlen, hP]

end OpenArm

namespace OpenArm

/-- Whether two consecutive bytes `0xAA, 0x55` occur somewhere in the
stream (the condition under which the syncing window fires). -/
def hasSyncPair : List ℕ → Bool
  | a :: b :: rest => (a == 0xaa && b == 0x55) || hasSyncPair (b :: rest)
  | _ => false

theorem noise_absorb1 (noise : List ℕ) (st : SerialReader)
    (hstate : st.state = .syncing) (hblen : st.buffer.length = PACKET_MAX_SIZE)
    (hidx : st.bufferIndex = 1)
    (hheld : st.buffer.getD 0 0 < 256)
    (hbytes : ∀ x ∈ noise, x < 256)
    (hnp : hasSyncPair (st.buffer.getD 0 0 :: noise) = false) :
    ∃ st', processBytes st noise = (st', []) ∧
      st'.state = .syncing ∧ (st'.bufferIndex = 0 ∨ st'.bufferIndex = 1) ∧
      st'.buffer.length = PACKET_MAX_SIZE := by
  induction noise generalizing st with
  | nil => exact ⟨st, rfl, hstate, Or.inr hidx, hblen⟩
  | cons b rest ih =>
    have hb : b < 256 := hbytes b (by simp)
    have h256 : st.buffer.length = 256 := hblen
    have hpair : ¬ (st.buffer.getD 0 0 = 0xaa ∧ b = 0x55) := by
      intro ⟨ha, hbb⟩
      rw [hasSyncPair, ha, hbb] at hnp
      simp at hnp
    have hg1 : (st.buffer.set 1 b)[1]? = some b :=
      getElem?_set_self _ _ _ (by omega)
    have hg0 : (st.buffer.set 1 b)[0]? = st.buffer[0]? :=
      getElem?_set_ne _ _ _ _ (by omega)
    have hh : st.buffer.getD 0 0 = st.buffer[0]?.getD 0 :=
      List.getD_eq_getElem?_getD _ _ _
    have hnomatch : (st.buffer.set 1 b).getD 0 0 * 256 +
        (st.buffer.set 1 b).getD 1 0 ≠ SYNC_WORD := by
      rw [List.getD_eq_getElem?_getD, List.getD_eq_getElem?_getD, hg0, hg1]
      simp only [Option.getD_some]
      unfold SYNC_WORD
      intro heq
      apply hpair
      rw [hh] at hheld ⊢
      omega
    have hs1 : stepByte st b =
        ({ st with buffer := (st.buffer.set 1 b).set 0 b, bufferIndex := 1 }, []) := by
      simp only [stepByte, hstate, handleSyncing, hidx]
      rw [if_pos (by omega), if_neg hnomatch, List.getD_eq_getElem?_getD, hg1]
      rfl
    have hg0' : ((st.buffer.set 1 b).set 0 b).getD 0 0 = b :=
      getD_set_eq _ _ _ (by simp [h256])
    have hnp' : hasSyncPair
        (((st.buffer.set 1 b).set 0 b).getD 0 0 :: rest) = false := by
      rw [hg0']
      rw [hasSyncPair] at hnp
      simp only [Bool.or_eq_false_iff] at hnp
      exact hnp.2
    obtain ⟨st', hrun, hst, hi, hl⟩ := ih
      { st with buffer := (st.buffer.set 1 b).set 0 b, bufferIndex := 1 }
      hstate (by simp [h256, PACKET_MAX_SIZE]) rfl
      (by rw [hg0']; exact hb)
      (fun x hx => hbytes x (by simp [hx]))
      hnp'
    refine ⟨st', ?_, hst, hi, hl⟩
    rw [processBytes_cons, hs1]
    simp only []
    rw [hrun]
    simp

theorem noise_absorb (noise : List ℕ) (st : SerialReader)
    (hstate : st.state = .syncing) (hblen : st.buffer.length = PACKET_MAX_SIZE)
    (hidx : st.bufferIndex = 0)
    (hbytes : ∀ x ∈ noise, x < 256)
    (hnp : hasSyncPair noise = false) :
    ∃ st', processBytes st noise = (st', []) ∧
      st'.state = .syncing ∧ (st'.bufferIndex = 0 ∨ st'.bufferIndex = 1) ∧
      st'.buffer.length = PACKET_MAX_SIZE := by
  cases noise with
  | nil => exact ⟨st, rfl, hstate, Or.inl hidx, hblen⟩
  | cons b rest =>
    have h256 : st.buffer.length = 256 := hblen
    have hs1 : stepByte st b =
        ({ st with buffer := st.buffer.set 0 b, bufferIndex := 1 }, []) := by
      simp [stepByte, hstate, handleSyncing, hidx]
    have hg0 : (st.buffer.set 0 b).getD 0 0 = b := getD_set_eq _ _ _ (by omega)
    obtain ⟨st', hrun, hst, hi, hl⟩ := noise_absorb1 rest
      { st with buffer := st.buffer.set 0 b, bufferIndex := 1 }
      hstate (by simp [h256, PACKET_MAX_SIZE]) rfl
      (by rw [hg0]; exact hbytes b (by simp))
      (fun x hx => hbytes x (by simp [hx]))
      (by rw [hg0]; exact hnp)
    refine ⟨st', ?_, hst, hi, hl⟩
    rw [processBytes_cons, hs1]
    simp only []
    rw [hrun]
    simp

end OpenArm

namespace OpenArm

/-- C3 is wrong on the code: a full false sync match in the noise makes
the reader read a noise byte as the frame length and swallow the real
frame.  Concretely, noise `AA 55` followed by the valid frame
`AA 55 00 01 01` (checksum `01` = XOR-fold of command `01` with empty
payload, as the second conjunct checks) delivers no packet at all: the
reader syncs on the noise, takes the frame's `AA` as a length of 170,
and is still waiting for payload bytes when the stream ends. -/
theorem C3_false_sync_swallows_frame_counterexample :
    (processBytes initReader ([0xaa, 0x55] ++ [0xaa, 0x55, 0x00, 0x01, 0x01])).2 = [] ∧
    parsePacket [0xaa, 0x55, 0x00, 0x01, 0x01] =
      .ok { sync := 0xaa55, length := 0, command := 0x01,
            payload := [], checksum := 0x01 } ∧
    verifyChecksum (0x01 :: ([] : List ℕ)) 0x01 = true :=
  ⟨by decide, rfl, by decide⟩

/-- C3 amended: for noise that never contains the two consecutive bytes
`0xAA, 0x55` (partial or overlapping false prefixes such as a trailing
`0xAA` are allowed), running the reader over noise ++ frame delivers
exactly the one packet decoded from the frame and nothing from the
noise; in `Syncing` a non-matching window is shifted left by one byte,
so the frame's own sync word is found even straddling the noise
boundary.  A full `AA 55` occurrence in the noise can instead swallow
the frame (see the counterexample), so the claim's "arbitrary noise" is
restricted to sync-free noise. -/
theorem C3_noise_then_frame_resync (noise payload : List ℕ) (L C ck : ℕ)
    (hbytes : ∀ x ∈ noise, x < 256) (hnp : hasSyncPair noise = false)
    (hplen : payload.length = L) (hsmall : 4 + L + 1 ≤ PACKET_MAX_SIZE) :
    (processBytes initReader
        (noise ++ (0xaa :: 0x55 :: L :: C :: (payload ++ [ck])))).2 =
      [.packet { sync := 0xaa55, length := L, command := C,
                 payload := payload, checksum := ck }] := by
  obtain ⟨st1, hrun, hst, hi, hl⟩ := noise_absorb noise initReader rfl
    (by simp [initReader]) rfl hbytes hnp
  obtain ⟨st2, hframe, _, _, _⟩ := frame_deliver st1 L C ck payload hst hi hl hplen hsmall
  rw [processBytes_append, hrun]
  simp only []
  rw [hframe]
  simp

/-- Witness for C3 (amended): noise `01 AA` — ending in a partial false
sync prefix `AA` — followed by the valid frame `AA 55 01 02 07 05`. -/
theorem C3_noise_then_frame_resync_witness :
    (processBytes initReader
        ([0x01, 0xaa] ++ (0xaa :: 0x55 :: 1 :: 2 :: ([7] ++ [5])))).2 =
      [.packet { sync := 0xaa55, length := 1, command := 2,
                 payload := [7], checksum := 5 }] :=
  C3_noise_then_frame_resync [0x01, 0xaa] [7] 1 2 5
    (by decide) (by decide) (by decide) (by decide)

/-- C5: two well-formed frames back-to-back, split across arbitrary
chunk boundaries, produce exactly two packets in stream order:
byte-at-a-time processing makes the reader's output depend only on the
concatenation of the chunks. -/
theorem C5_two_frames_any_chunking (chunks : List (List ℕ))
    (payload1 payload2 : List ℕ) (L1 cmd1 ck1 L2 cmd2 ck2 : ℕ)
    (hp1 : payload1.length = L1) (hs1 : 4 + L1 + 1 ≤ PACKET_MAX_SIZE)
    (hp2 : payload2.length = L2) (hs2 : 4 + L2 + 1 ≤ PACKET_MAX_SIZE)
    (hjoin : chunks.flatten =
      (0xaa :: 0x55 :: L1 :: cmd1 :: (payload1 ++ [ck1])) ++
      (0xaa :: 0x55 :: L2 :: cmd2 :: (payload2 ++ [ck2]))) :
    (runChunks initReader chunks).2 =
      [.packet { sync := 0xaa55, length := L1, command := cmd1,
                 payload := payload1, checksum := ck1 },
       .packet { sync := 0xaa55, length := L2, command := cmd2,
                 payload := payload2, checksum := ck2 }] := by
  rw [runChunks_join, hjoin]
  obtain ⟨st1, hf1, hst, hi, hl⟩ := frame_deliver initReader L1 cmd1 ck1 payload1
    rfl (Or.inl rfl) (by simp [initReader]) hp1 hs1
  obtain ⟨st2, hf2, _, _, _⟩ := frame_deliver st1 L2 cmd2 ck2 payload2
    hst (Or.inl hi) hl hp2 hs2
  rw [processBytes_append, hf1]
  simp only []
  rw [hf2]
  simp

/-- Witness for C5: frames `AA 55 00 09 09` and `AA 55 01 02 05 07`
split across three chunks, one of them cutting the second sync word. -/
theorem C5_two_frames_any_chunking_witness :
    (runChunks initReader [[0xaa], [0x55, 0, 9, 9, 0xaa, 0x55, 1], [2, 5, 7]]).2 =
      [.packet { sync := 0xaa55, length := 0, command := 9,
                 payload := [], checksum := 9 },
       .packet { sync := 0xaa55, length := 1, command := 2,
                 payload := [5], checksum := 7 }] :=
  C5_two_frames_any_chunking [[0xaa], [0x55, 0, 9, 9, 0xaa, 0x55, 1], [2, 5, 7]]
    [] [5] 0 9 9 1 2 7 (by decide) (by decide) (by decide) (by decide) (by decide)

/-- C10: once synced onto a frame whose header declares a length `L`
with `4 + L + 1 > 256` (`L > 251`), the reader never delivers a packet
for that frame: stores beyond the 256-byte scratch buffer are silently
discarded, the completed attempt hands the 256 buffered bytes to
`parsePacket`, which fails with the `Incomplete packet` error reported
to the error sink, and the reader resets to `Syncing` with its cursor
at zero. -/
theorem C10_oversized_frame_never_delivered (st : SerialReader) (L C ck : ℕ)
    (payload : List ℕ)
    (hstate : st.state = .syncing) (hidx : st.bufferIndex = 0 ∨ st.bufferIndex = 1)
    (hblen : st.buffer.length = PACKET_MAX_SIZE)
    (hplen : payload.length = L) (hbig : 251 < L) :
    ∃ st', processBytes st (0xaa :: 0x55 :: L :: C :: (payload ++ [ck])) =
        (st', [.err .incompletePacket]) ∧
      st'.state = .syncing ∧ st'.bufferIndex = 0 ∧
      st'.buffer.length = PACKET_MAX_SIZE :=
  frame_overflow st L C ck payload hstate hidx hblen hplen hbig

/-- Witness for C10: a frame declaring a 252-byte payload
(`4 + 252 + 1 = 257 > 256`) fed to a freshly started reader. -/
theorem C10_oversized_frame_never_delivered_witness :
    ∃ st', processBytes initReader
        (0xaa :: 0x55 :: 252 :: 1 :: (List.replicate 252 0 ++ [0])) =
        (st', [.err .incompletePacket]) ∧
      st'.state = .syncing ∧ st'.bufferIndex = 0 ∧
      st'.buffer.length = PACKET_MAX_SIZE :=
  C10_oversized_frame_never_delivered initReader 252 1 0 (List.replicate 252 0)
    rfl (Or.inl rfl) (by simp [initReader]) (List.length_replicate 252 0) (by omega)

end OpenArm
